import Mathlib

/-!
Verification of the webhook delivery subsystem (`webhook/url_notifier.go`,
`livekit/livekit_webhook.pb.go`).

The Go code is shallowly embedded: the notifier's pure control flow becomes
Lean functions over explicit state; the three atomic operations on the
`dropped` counter (an `atomic.Int32`) become a small trace machine; external
collaborators (the queue pool, the retrying HTTP client, `protojson`,
`auth.AccessToken`) are modelled at their contract boundary.  32-bit wrap-around
of the Go `int32` counter is kept explicit via `wrap32`.
-/

namespace Webhook

/-- Signed 32-bit wrap-around, as performed by Go `atomic.Int32` arithmetic:
the result is the representative of `x` in `[-2^31, 2^31)`. -/
def wrap32 (x : Int) : Int := (x + 2 ^ 31) % 2 ^ 32 - 2 ^ 31

theorem wrap32_eq_self {x : Int} (h0 : 0 ≤ x) (h1 : x < 2 ^ 31) : wrap32 x = x := by
  unfold wrap32
  omega

/-- Room context record.  The message type is external to the delivery
subsystem (spec treats the payload as opaque-but-structured); only the room
identifier is relevant here, as the partition key is derived from it. -/
structure Room where
  name : String
  deriving Repr, DecidableEq

/-- Participant context record (external, opaque to the notifier). -/
structure ParticipantInfo where
  sid : String
  deriving Repr, DecidableEq

/-- Track context record (external, opaque to the notifier). -/
structure TrackInfo where
  sid : String
  deriving Repr, DecidableEq

/-- Egress context record (external, opaque to the notifier). -/
structure EgressInfo where
  egressId : String
  deriving Repr, DecidableEq

/-- Ingress context record (external, opaque to the notifier). -/
structure IngressInfo where
  ingressId : String
  deriving Repr, DecidableEq

/-- The `WebhookEvent` message (`livekit/livekit_webhook.pb.go`): event type
tag, optional room / participant / egress / ingress / track context, unique
id, creation timestamp, and the mutable `NumDropped` field (a Go `int32`)
that `send` overwrites immediately before delivery. -/
structure WebhookEvent where
  event : String
  room : Option Room
  participant : Option ParticipantInfo
  egressInfo : Option EgressInfo
  ingressInfo : Option IngressInfo
  track : Option TrackInfo
  id : String
  createdAt : Int
  numDropped : Int
  deriving Repr, DecidableEq

/-! ## Drop accounting (the `dropped` atomic counter)

`URLNotifier.dropped` is touched by exactly three atomic operations:

* `dropped.Inc()` when `pool.Submit` rejects an enqueue
  (`QueueNotify`, line 164);
* `event.NumDropped = dropped.Swap(0)` at the start of `send` (line 199);
* `dropped.Add(event.NumDropped + 1)` in the worker task when `send`
  returned an error (line 143).

A concurrent execution linearizes into a sequence of these operations.  The
machine below replays such a sequence; `pending` holds the `NumDropped`
value of the in-flight send attempt, and the discipline that `sendBegin`
requires `pending = none` expresses single-threaded sends. -/

/-- One linearized atomic operation on the drop counter. -/
inductive DropEv where
  | reject
  | sendBegin
  | sendEnd (ok : Bool)
  deriving Repr, DecidableEq

/-- Counter machine state: the atomic counter, the `NumDropped` value held by
the in-flight send attempt (if any), and the `NumDropped` values carried by
the successfully sent events, in order. -/
structure DropState where
  counter : Int
  pending : Option Int
  reported : List Int
  deriving Repr, DecidableEq

/-- One atomic step.  `none` marks an ill-formed trace (a second send
beginning while one is in flight, or an end without a begin). -/
def dropStep (s : DropState) : DropEv → Option DropState
  | .reject => some { s with counter := wrap32 (s.counter + 1) }
  | .sendBegin =>
      match s.pending with
      | none => some { s with counter := 0, pending := some s.counter }
      | some _ => none
  | .sendEnd ok =>
      match s.pending with
      | none => none
      | some nd =>
          if ok then
            some { s with pending := none, reported := s.reported ++ [nd] }
          else
            some { s with counter := wrap32 (s.counter + (nd + 1)), pending := none }

def dropRun (s : DropState) : List DropEv → Option DropState
  | [] => some s
  | e :: tr =>
      match dropStep s e with
      | none => none
      | some s2 => dropRun s2 tr

/-- Is this operation a drop?  Each enqueue rejection and each failed send
attempt loses exactly one event. -/
def isDrop : DropEv → Bool
  | .reject => true
  | .sendEnd false => true
  | _ => false

/-- Total number of events dropped along a trace. -/
def dropCount (tr : List DropEv) : Nat := tr.countP isDrop

/-- Drops still unaccounted for in a state: the counter itself plus whatever
an in-flight send attempt has swapped out. -/
def DropState.unreported (s : DropState) : Int := s.counter + s.pending.getD 0

/-- Well-formed counter state: all stored values are non-negative. -/
def DropState.Wf (s : DropState) : Prop :=
  0 ≤ s.counter ∧ (∀ x ∈ s.pending, 0 ≤ x) ∧ ∀ x ∈ s.reported, 0 ≤ x

theorem dropRun_conservation (tr : List DropEv) :
    ∀ (s s2 : DropState), dropRun s tr = some s2 → s.Wf →
      s.unreported + dropCount tr < 2 ^ 31 →
      s2.Wf ∧ s2.unreported + s2.reported.sum
        = s.unreported + s.reported.sum + dropCount tr := by
  induction tr with
  | nil =>
      intro s s2 hrun hwf _
      simp only [dropRun, Option.some.injEq] at hrun
      subst hrun
      exact ⟨hwf, by simp [dropCount]⟩
  | cons e tr ih =>
      intro s s2 hrun hwf hb
      obtain ⟨c, p, r⟩ := s
      obtain ⟨hc, hp, hr⟩ := hwf
      have hc2 : (0 : Int) ≤ c := hc
      have hp2 : ∀ x ∈ p, (0 : Int) ≤ x := hp
      have hp0 : 0 ≤ p.getD 0 := by
        cases p with
        | none => simp
        | some v => simpa using hp2 v (by simp)
      have hd0 : (0 : Int) ≤ (dropCount tr : Int) := Int.ofNat_nonneg _
      have hb2 : c + p.getD 0 + dropCount (e :: tr) < 2 ^ 31 := hb
      show s2.Wf ∧ s2.unreported + s2.reported.sum
        = c + p.getD 0 + r.sum + dropCount (e :: tr)
      cases e with
      | reject =>
          have hdc : dropCount (DropEv.reject :: tr) = dropCount tr + 1 := by
            simp [dropCount, List.countP_cons, isDrop]
          rw [hdc] at hb2
          simp only [dropRun, dropStep] at hrun
          have hw : wrap32 (c + 1) = c + 1 :=
            wrap32_eq_self (by omega) (by push_cast at hb2; omega)
          rw [hw] at hrun
          obtain ⟨hwf2, hsum⟩ := ih _ _ hrun
            ⟨show (0 : Int) ≤ c + 1 by omega, hp, hr⟩
            (show c + 1 + p.getD 0 + (dropCount tr : Int) < 2 ^ 31 by
              push_cast at hb2 ⊢; omega)
          have hsum2 : s2.unreported + s2.reported.sum
              = c + 1 + p.getD 0 + r.sum + dropCount tr := hsum
          refine ⟨hwf2, ?_⟩
          rw [hdc]
          push_cast at hsum2 ⊢
          omega
      | sendBegin =>
          have hdc : dropCount (DropEv.sendBegin :: tr) = dropCount tr := by
            simp [dropCount, List.countP_cons, isDrop]
          rw [hdc] at hb2
          cases p with
          | some v => simp [dropRun, dropStep] at hrun
          | none =>
              simp only [dropRun, dropStep] at hrun
              obtain ⟨hwf2, hsum⟩ := ih _ _ hrun
                ⟨le_refl 0, by intro x hx; simp at hx; omega, hr⟩
                (show (0 : Int) + (Option.some c).getD 0 + (dropCount tr : Int) < 2 ^ 31 by
                  simp only [Option.getD_some] at hb2 ⊢
                  simp at hb2
                  omega)
              have hsum2 : s2.unreported + s2.reported.sum
                  = 0 + (Option.some c).getD 0 + r.sum + dropCount tr := hsum
              refine ⟨hwf2, ?_⟩
              rw [hdc]
              simp only [Option.getD_some] at hsum2
              simp only [Option.getD_none]
              omega
      | sendEnd ok =>
          cases p with
          | none => simp [dropRun, dropStep] at hrun
          | some nd =>
              have hnd : 0 ≤ nd := by simpa using hp2 nd (by simp)
              simp only [Option.getD_some] at hb2 hp0 ⊢
              cases ok with
              | true =>
                  have hdc : dropCount (DropEv.sendEnd true :: tr) = dropCount tr := by
                    simp [dropCount, List.countP_cons, isDrop]
                  rw [hdc] at hb2
                  simp only [dropRun, dropStep] at hrun
                  obtain ⟨hwf2, hsum⟩ := ih _ _ hrun
                    ⟨hc, by intro x hx; simp at hx, by
                      intro x hx
                      rcases List.mem_append.mp hx with h | h
                      · exact hr x h
                      · simp at h; omega⟩
                    (show c + (Option.none).getD 0 + (dropCount tr : Int) < 2 ^ 31 by
                      simp only [Option.getD_none]
                      omega)
                  have hsum2 : s2.unreported + s2.reported.sum
                      = c + (Option.none).getD 0 + (r ++ [nd]).sum + dropCount tr := hsum
                  refine ⟨hwf2, ?_⟩
                  rw [hdc]
                  simp only [Option.getD_none, List.sum_append, List.sum_cons,
                    List.sum_nil] at hsum2 ⊢
                  omega
              | false =>
                  have hdc : dropCount (DropEv.sendEnd false :: tr) = dropCount tr + 1 := by
                    simp [dropCount, List.countP_cons, isDrop]
                  rw [hdc] at hb2
                  simp only [dropRun, dropStep, Bool.false_eq_true, if_false] at hrun
                  have hw : wrap32 (c + (nd + 1)) = c + (nd + 1) := by
                    apply wrap32_eq_self (by omega)
                    push_cast at hb2
                    omega
                  rw [hw] at hrun
                  obtain ⟨hwf2, hsum⟩ := ih _ _ hrun
                    ⟨show (0 : Int) ≤ c + (nd + 1) by omega, by intro x hx; simp at hx, hr⟩
                    (show c + (nd + 1) + (Option.none).getD 0 + (dropCount tr : Int) < 2 ^ 31 by
                      simp only [Option.getD_none]
                      push_cast at hb2 ⊢
                      omega)
                  have hsum2 : s2.unreported + s2.reported.sum
                      = c + (nd + 1) + (Option.none).getD 0 + r.sum + dropCount tr := hsum
                  refine ⟨hwf2, ?_⟩
                  rw [hdc]
                  simp only [Option.getD_none] at hsum2
                  push_cast at hsum2 ⊢
                  omega

/-- A single-threaded send schedule: each send attempt begins and ends with
nothing interleaved (the worker executes attempts back to back, and no
producer records a drop while an attempt is in flight). -/
inductive SeqOp where
  | reject
  | attempt (ok : Bool)
  deriving Repr, DecidableEq

/-- The linearized atomic-operation trace of a sequential schedule. -/
def seqTrace : List SeqOp → List DropEv
  | [] => []
  | .reject :: l => .reject :: seqTrace l
  | .attempt ok :: l => .sendBegin :: .sendEnd ok :: seqTrace l

/-- Number of drops in a sequential schedule: enqueue rejections plus failed
send attempts. -/
def seqDrops : List SeqOp → Nat
  | [] => 0
  | .reject :: l => seqDrops l + 1
  | .attempt false :: l => seqDrops l + 1
  | .attempt true :: l => seqDrops l

/-- Specification-side accounting: for each successful send in order, the
number of drops (enqueue rejections and failed send attempts) recorded
strictly since the previous successful send; `g` is the count carried in. -/
def seqWindows (g : Nat) : List SeqOp → List Nat
  | [] => []
  | .reject :: l => seqWindows (g + 1) l
  | .attempt false :: l => seqWindows (g + 1) l
  | .attempt true :: l => g :: seqWindows 0 l

/-- Drops recorded after the last successful send of the schedule. -/
def seqRem (g : Nat) : List SeqOp → Nat
  | [] => g
  | .reject :: l => seqRem (g + 1) l
  | .attempt false :: l => seqRem (g + 1) l
  | .attempt true :: l => seqRem 0 l

theorem dropRun_cons_some (s s2 : DropState) (e : DropEv) (tr : List DropEv)
    (h : dropStep s e = some s2) : dropRun s (e :: tr) = dropRun s2 tr := by
  simp [dropRun, h]

theorem dropStep_reject_eq (c : Int) (p : Option Int) (r : List Int) :
    dropStep ⟨c, p, r⟩ .reject = some ⟨wrap32 (c + 1), p, r⟩ := rfl

theorem dropStep_begin_eq (c : Int) (r : List Int) :
    dropStep ⟨c, none, r⟩ .sendBegin = some ⟨0, some c, r⟩ := rfl

theorem dropStep_end_true_eq (c nd : Int) (r : List Int) :
    dropStep ⟨c, some nd, r⟩ (.sendEnd true) = some ⟨c, none, r ++ [nd]⟩ := rfl

theorem dropStep_end_false_eq (c nd : Int) (r : List Int) :
    dropStep ⟨c, some nd, r⟩ (.sendEnd false)
      = some ⟨wrap32 (c + (nd + 1)), none, r⟩ := rfl

theorem seqRun_reported (l : List SeqOp) :
    ∀ (g : Nat) (r : List Int), g + seqDrops l < 2 ^ 31 →
      dropRun ⟨(g : Int), none, r⟩ (seqTrace l)
        = some ⟨(seqRem g l : Int), none,
            r ++ (seqWindows g l).map (fun n => (n : Int))⟩ := by
  induction l with
  | nil =>
      intro g r _
      simp [seqTrace, dropRun, seqRem, seqWindows]
  | cons op l ih =>
      intro g r hb
      cases op with
      | reject =>
          have hdl : seqDrops (SeqOp.reject :: l) = seqDrops l + 1 := by
            simp [seqDrops]
          rw [hdl] at hb
          rw [show seqTrace (SeqOp.reject :: l) = DropEv.reject :: seqTrace l from rfl]
          rw [dropRun_cons_some _ _ _ _ (dropStep_reject_eq _ _ _)]
          have hw : wrap32 ((g : Int) + 1) = (g : Int) + 1 :=
            wrap32_eq_self (by positivity) (by push_cast; omega)
          rw [hw]
          have hcast : (g : Int) + 1 = ((g + 1 : Nat) : Int) := by omega
          rw [hcast, ih (g + 1) r (by omega)]
          simp [seqRem, seqWindows]
      | attempt ok =>
          cases ok with
          | true =>
              have hdl : seqDrops (SeqOp.attempt true :: l) = seqDrops l := by
                simp [seqDrops]
              rw [hdl] at hb
              rw [show seqTrace (SeqOp.attempt true :: l)
                    = DropEv.sendBegin :: DropEv.sendEnd true :: seqTrace l from rfl]
              rw [dropRun_cons_some _ _ _ _ (dropStep_begin_eq _ _)]
              rw [dropRun_cons_some _ _ _ _ (dropStep_end_true_eq _ _ _)]
              rw [show (0 : Int) = ((0 : Nat) : Int) from rfl]
              rw [ih 0 (r ++ [(g : Int)]) (by omega)]
              simp [seqRem, seqWindows]
          | false =>
              have hdl : seqDrops (SeqOp.attempt false :: l) = seqDrops l + 1 := by
                simp [seqDrops]
              rw [hdl] at hb
              rw [show seqTrace (SeqOp.attempt false :: l)
                    = DropEv.sendBegin :: DropEv.sendEnd false :: seqTrace l from rfl]
              rw [dropRun_cons_some _ _ _ _ (dropStep_begin_eq _ _)]
              rw [dropRun_cons_some _ _ _ _ (dropStep_end_false_eq _ _ _)]
              rw [show (0 : Int) + ((g : Int) + 1) = (g : Int) + 1 from by omega]
              have hw : wrap32 ((g : Int) + 1) = (g : Int) + 1 :=
                wrap32_eq_self (by positivity) (by push_cast; omega)
              rw [hw]
              have hcast : (g : Int) + 1 = ((g + 1 : Nat) : Int) := by omega
              rw [hcast, ih (g + 1) r (by omega)]
              simp [seqRem, seqWindows]

/-- C1: for every successfully sent event, the `num_dropped` field written
into it equals the exact number of drops (enqueue rejections plus prior send
failures) recorded strictly between the previous successful send and this
one, and the Drop Counter is reset to 0 by a single atomic swap when it is
read, so no drop is double-counted or lost under concurrent drop-producing
load with single-threaded sends.  First conjunct (arbitrary interleaving of
drop-recording operations with single-threaded sends): the still-unreported
count plus everything already written into sent events equals the total
number of drops — nothing is lost or double-counted by the swap.  Second
conjunct (attempts executed back to back): each successful send reports
exactly the drops recorded strictly since the previous successful send. -/
theorem drop_counter_exact_accounting :
    (∀ (tr : List DropEv) (s : DropState),
        dropRun ⟨0, none, []⟩ tr = some s → (dropCount tr : Int) < 2 ^ 31 →
        s.unreported + s.reported.sum = dropCount tr)
    ∧ ∀ (l : List SeqOp) (s : DropState),
        dropRun ⟨0, none, []⟩ (seqTrace l) = some s → seqDrops l < 2 ^ 31 →
        s.reported = (seqWindows 0 l).map (fun n => (n : Int)) := by
  constructor
  · intro tr s hrun hb
    have h := dropRun_conservation tr ⟨0, none, []⟩ s hrun
      ⟨le_refl 0, by simp, by simp⟩
      (show (0 : Int) + (Option.none).getD 0 + (dropCount tr : Int) < 2 ^ 31 by
        simp only [Option.getD_none]
        omega)
    have h2 : s.unreported + s.reported.sum
        = (0 : Int) + (Option.none).getD 0 + ([] : List Int).sum + dropCount tr := h.2
    simpa using h2
  · intro l s hrun hb
    have h2 := seqRun_reported l 0 [] (by omega)
    simp only [Nat.cast_zero, List.nil_append] at h2
    rw [hrun] at h2
    simp only [Option.some.injEq] at h2
    rw [h2]

/-- Concrete check of C1 at the schedule reject, failed attempt, successful
attempt: the successful send reports both drops. -/
theorem drop_counter_exact_accounting_witness :
    ((⟨0, none, [2]⟩ : DropState).unreported + ([2] : List Int).sum
        = dropCount [DropEv.reject, DropEv.sendBegin, DropEv.sendEnd false,
            DropEv.sendBegin, DropEv.sendEnd true])
    ∧ (⟨0, none, [2]⟩ : DropState).reported
        = (seqWindows 0 [SeqOp.reject, SeqOp.attempt false, SeqOp.attempt true]).map
            (fun n => (n : Int)) :=
  ⟨drop_counter_exact_accounting.1
      [DropEv.reject, DropEv.sendBegin, DropEv.sendEnd false,
        DropEv.sendBegin, DropEv.sendEnd true]
      ⟨0, none, [2]⟩ (by decide) (by decide),
   drop_counter_exact_accounting.2
      [SeqOp.reject, SeqOp.attempt false, SeqOp.attempt true]
      ⟨0, none, [2]⟩ (by decide) (by decide)⟩

/-! ## The notifier: QueueNotify and its synchronous effects -/

/-- The Delivery Outcome record handed to the hooks.  Modelled from the spec:
the `webhookInfo` builder itself is not among the sources (only its two call
sites in `QueueNotify` are); per the spec the outcome carries the enqueue
timestamp, queue wait duration, send start time, send duration, target URL,
a dropped-before-send flag, and an optional error. -/
structure WebhookInfo where
  event : WebhookEvent
  queuedAt : Int
  queueDuration : Int
  sentAt : Int
  sendDuration : Int
  url : String
  isDropped : Bool
  error : Option String
  deriving Repr, DecidableEq

/-- Modelled from the spec: the Delivery Outcome builder (the source helper
`webhookInfo` is outside the sources considered; the eight arguments of its
call sites in `QueueNotify` are packed into the record in order). -/
def webhookInfo (e : WebhookEvent) (queuedAt queueDuration sentAt sendDuration : Int)
    (url : String) (isDropped : Bool) (err : Option String) : WebhookInfo :=
  ⟨e, queuedAt, queueDuration, sentAt, sendDuration, url, isDropped, err⟩

/-- Modelled from the spec: `eventKey` derives the partition key
deterministically from the event's associated room identifier (spec 4.4
step 2; the helper's source is not among the sources considered). -/
def eventKey (e : WebhookEvent) : String :=
  ((e.room).map Room.name).getD ("")

/-- The notifier configuration and state read by one `QueueNotify` call: the
target URL, the filter predicate (`filter.IsAllowed`), the optional fields
hook, whether a processed hook is registered, and the drop counter value. -/
structure Notifier where
  url : String
  isAllowed : String → Bool
  fieldsHook : Option (WebhookInfo → WebhookInfo)
  hasProcessedHook : Bool
  dropped : Int

/-- The caller-visible result and synchronous side effects of one
`QueueNotify` call: the returned error, the drop counter afterwards, the
partition key submitted to the pool (`none` when nothing was enqueued), the
Delivery Outcomes built synchronously, the outcomes handed synchronously to
the processed hook, the number of synchronous fields-hook invocations, and
the event as the call itself leaves it. -/
structure QueueNotifyResult where
  error : Option String
  dropped : Int
  submitted : Option String
  outcomes : List WebhookInfo
  processedCalls : List WebhookInfo
  fieldsCalls : Nat
  eventAfter : WebhookEvent
  deriving Repr, DecidableEq

/-- `URLNotifier.QueueNotify` (url_notifier.go, lines 123-187).  `accepted`
is the boolean `pool.Submit` returned for this call (the pool is a black-box
collaborator; the deferred task body is modelled separately as `runTask`).
Recorded here are the synchronous effects only, faithful to the source:
filtered events return at once; accepted events submit under `eventKey`;
rejected events increment the counter, build the zeroed dropped outcome,
pass it to the fields hook if any, and invoke the processed hook in line. -/
def QueueNotify (n : Notifier) (e : WebhookEvent) (accepted : Bool) : QueueNotifyResult :=
  if ¬ n.isAllowed e.event then
    { error := none, dropped := n.dropped, submitted := none, outcomes := [],
      processedCalls := [], fieldsCalls := 0, eventAfter := e }
  else if accepted then
    { error := none, dropped := n.dropped, submitted := some (eventKey e),
      outcomes := [], processedCalls := [], fieldsCalls := 0, eventAfter := e }
  else
    let dropped2 := wrap32 (n.dropped + 1)
    if n.hasProcessedHook then
      let whi := webhookInfo e 0 0 0 0 n.url true none
      match n.fieldsHook with
      | some fh =>
          { error := none, dropped := dropped2, submitted := none,
            outcomes := [whi], processedCalls := [fh whi], fieldsCalls := 1,
            eventAfter := e }
      | none =>
          { error := none, dropped := dropped2, submitted := none,
            outcomes := [whi], processedCalls := [whi], fieldsCalls := 0,
            eventAfter := e }
    else
      { error := none, dropped := dropped2, submitted := none, outcomes := [],
        processedCalls := [], fieldsCalls := 0, eventAfter := e }

/-- A concrete event used by the witnesses. -/
def sampleEvent : WebhookEvent :=
  { event := "room_started", room := some ⟨("r1")⟩, participant := none,
    egressInfo := none, ingressInfo := none, track := none,
    id := "evt1", createdAt := 100, numDropped := 0 }

/-- C2: for every event whose type is not allowed by the filter, QueueNotify
returns nil immediately with no side effects: no enqueue into the pool, no
send, no change to the Drop Counter, and no invocation of the processed hook
or fields hook. -/
theorem queueNotify_filtered_no_effects (n : Notifier) (e : WebhookEvent)
    (accepted : Bool) (h : n.isAllowed e.event = false) :
    QueueNotify n e accepted =
      { error := none, dropped := n.dropped, submitted := none, outcomes := [],
        processedCalls := [], fieldsCalls := 0, eventAfter := e } := by
  simp [QueueNotify, h]

/-- Concrete check of C2: a deny-all filter leaves the notifier untouched. -/
theorem queueNotify_filtered_no_effects_witness :
    QueueNotify ⟨"http://recv", fun _ => false, none, true, 5⟩ sampleEvent true
      = ⟨none, 5, none, [], [], 0, sampleEvent⟩ :=
  queueNotify_filtered_no_effects ⟨"http://recv", fun _ => false, none, true, 5⟩
    sampleEvent true rfl

/-- C3: for every event and every outcome (filtered out, accepted into the
queue, or rejected by a full partition), QueueNotify returns nil; enqueue
rejection and downstream delivery failures are never surfaced as an error to
the caller. -/
theorem queueNotify_always_returns_nil (n : Notifier) (e : WebhookEvent)
    (accepted : Bool) : (QueueNotify n e accepted).error = none := by
  cases h1 : n.isAllowed e.event <;> cases accepted <;>
    cases h2 : n.hasProcessedHook <;> cases h3 : n.fieldsHook <;>
      simp [QueueNotify, h1, h2, h3]

/-- C4: for every event whose pool submission is rejected (partition at
capacity), the Drop Counter increases by exactly 1, and if a processed hook
is registered it is invoked synchronously — inside `QueueNotify` itself, not
in a deferred task — with a Delivery Outcome whose dropped flag is true,
whose timings are zeroed, and whose error is nil (the outcome the hook
receives has first been handed to the registered fields hook, as in the
source). -/
theorem queueNotify_rejected_drop_and_hook (n : Notifier) (e : WebhookEvent)
    (hallow : n.isAllowed e.event = true)
    (hrange : 0 ≤ n.dropped ∧ n.dropped + 1 < 2 ^ 31) :
    (QueueNotify n e false).dropped = n.dropped + 1
    ∧ (n.hasProcessedHook = true →
        (QueueNotify n e false).processedCalls
          = [(n.fieldsHook.getD id) (webhookInfo e 0 0 0 0 n.url true none)])
    ∧ (webhookInfo e 0 0 0 0 n.url true none).isDropped = true
    ∧ (webhookInfo e 0 0 0 0 n.url true none).queuedAt = 0
    ∧ (webhookInfo e 0 0 0 0 n.url true none).queueDuration = 0
    ∧ (webhookInfo e 0 0 0 0 n.url true none).sentAt = 0
    ∧ (webhookInfo e 0 0 0 0 n.url true none).sendDuration = 0
    ∧ (webhookInfo e 0 0 0 0 n.url true none).error = none := by
  have hw : wrap32 (n.dropped + 1) = n.dropped + 1 :=
    wrap32_eq_self (by omega) (by omega)
  refine ⟨?_, ?_, rfl, rfl, rfl, rfl, rfl, rfl⟩
  · cases h2 : n.hasProcessedHook <;> cases h3 : n.fieldsHook <;>
      simp [QueueNotify, hallow, h2, h3, hw]
  · intro h2
    cases h3 : n.fieldsHook <;> simp [QueueNotify, hallow, h2, h3, webhookInfo]

/-- Concrete check of C4 on a rejected submission with a registered processed
hook and no fields hook. -/
theorem queueNotify_rejected_drop_and_hook_witness :
    (QueueNotify ⟨"http://recv", fun _ => true, none, true, 7⟩ sampleEvent false).dropped
        = 7 + 1
    ∧ ((true : Bool) = true →
        (QueueNotify ⟨"http://recv", fun _ => true, none, true, 7⟩ sampleEvent
            false).processedCalls
          = [(Option.none.getD id)
              (webhookInfo sampleEvent 0 0 0 0 ("http://recv") true none)])
    ∧ (webhookInfo sampleEvent 0 0 0 0 ("http://recv") true none).isDropped = true
    ∧ (webhookInfo sampleEvent 0 0 0 0 ("http://recv") true none).queuedAt = 0
    ∧ (webhookInfo sampleEvent 0 0 0 0 ("http://recv") true none).queueDuration = 0
    ∧ (webhookInfo sampleEvent 0 0 0 0 ("http://recv") true none).sentAt = 0
    ∧ (webhookInfo sampleEvent 0 0 0 0 ("http://recv") true none).sendDuration = 0
    ∧ (webhookInfo sampleEvent 0 0 0 0 ("http://recv") true none).error = none :=
  queueNotify_rejected_drop_and_hook
    ⟨"http://recv", fun _ => true, none, true, 7⟩ sampleEvent rfl
    ⟨by decide, by decide⟩

/-! ## SHA-256 (crypto/sha256) and standard base64 (encoding/base64), as used
by `send` to compute the payload digest it signs. -/

namespace SHA256

/-- Rotate a 32-bit word right by `n` positions. -/
def rotr (n x : Nat) : Nat := ((x >>> n) ||| (x <<< (32 - n))) % 2 ^ 32

/-- The round-constant table of FIPS 180-4 (the fractional parts of the cube
roots of the first 64 primes), given here in decimal. -/
def K : List Nat :=
  [1116352408, 1899447441, 3049323471, 3921009573, 961987163,
   1508970993, 2453635748, 2870763221, 3624381080, 310598401,
   607225278, 1426881987, 1925078388, 2162078206, 2614888103,
   3248222580, 3835390401, 4022224774, 264347078, 604807628,
   770255983, 1249150122, 1555081692, 1996064986, 2554220882,
   2821834349, 2952996808, 3210313671, 3336571891, 3584528711,
   113926993, 338241895, 666307205, 773529912, 1294757372,
   1396182291, 1695183700, 1986661051, 2177026350, 2456956037,
   2730485921, 2820302411, 3259730800, 3345764771, 3516065817,
   3600352804, 4094571909, 275423344, 430227734, 506948616,
   659060556, 883997877, 958139571, 1322822218, 1537002063,
   1747873779, 1955562222, 2024104815, 2227730452, 2361852424,
   2428436474, 2756734187, 3204031479, 3329325298]

/-- Working variables of the compression function. -/
structure Hash8 where
  a : Nat
  b : Nat
  c : Nat
  d : Nat
  e : Nat
  f : Nat
  g : Nat
  h : Nat
  deriving Repr, DecidableEq

/-- Big-endian eight-byte encoding of the message bit length. -/
def lenBytes (n : Nat) : List Nat :=
  [(n >>> 56) % 256, (n >>> 48) % 256, (n >>> 40) % 256, (n >>> 32) % 256,
   (n >>> 24) % 256, (n >>> 16) % 256, (n >>> 8) % 256, n % 256]

/-- Message padding: a 0x80 byte, zeros to 56 mod 64, then the bit length. -/
def pad (msg : List Nat) : List Nat :=
  msg ++ 0x80 :: List.replicate ((119 - msg.length % 64) % 64) 0
    ++ lenBytes (msg.length * 8)

/-- Big-endian packing of bytes into 32-bit words. -/
def toWords : List Nat → List Nat
  | b0 :: b1 :: b2 :: b3 :: rest =>
      (((b0 % 256) <<< 24) + ((b1 % 256) <<< 16) + ((b2 % 256) <<< 8)
        + b3 % 256) :: toWords rest
  | _ => []

/-- Split the padded word stream into 16-word blocks (padding guarantees the
stream length is a multiple of 16; a ragged tail cannot occur and is kept
as its own short block). -/
def chunks16 : List Nat → List (List Nat)
  | [] => []
  | w0 :: w1 :: w2 :: w3 :: w4 :: w5 :: w6 :: w7
      :: w8 :: w9 :: w10 :: w11 :: w12 :: w13 :: w14 :: w15 :: rest =>
      [w0, w1, w2, w3, w4, w5, w6, w7, w8, w9, w10, w11, w12, w13, w14, w15]
        :: chunks16 rest
  | l => [l]

/-- Extend a 16-word block to the full 64-word message schedule. -/
def schedule (ws : List Nat) : Array Nat :=
  (List.range 48).foldl
    (fun w _ =>
      let i := w.size - 16
      let x := w.getD (i + 1) 0
      let y := w.getD (i + 14) 0
      let s0 := rotr 7 x ^^^ rotr 18 x ^^^ (x >>> 3)
      let s1 := rotr 17 y ^^^ rotr 19 y ^^^ (y >>> 10)
      w.push ((w.getD i 0 + s0 + w.getD (i + 9) 0 + s1) % 2 ^ 32))
    ws.toArray

/-- The 64-round compression function. -/
def compress (st : Hash8) (w : Array Nat) : Hash8 :=
  (List.range 64).foldl
    (fun s i =>
      let S1 := rotr 6 s.e ^^^ rotr 11 s.e ^^^ rotr 25 s.e
      let chv := (s.e &&& s.f) ^^^ ((s.e ^^^ 0xffffffff) &&& s.g)
      let t1 := (s.h + S1 + chv + K.getD i 0 + w.getD i 0) % 2 ^ 32
      let S0 := rotr 2 s.a ^^^ rotr 13 s.a ^^^ rotr 22 s.a
      let mj := (s.a &&& s.b) ^^^ (s.a &&& s.c) ^^^ (s.b &&& s.c)
      let t2 := (S0 + mj) % 2 ^ 32
      ⟨(t1 + t2) % 2 ^ 32, s.a, s.b, s.c, (s.d + t1) % 2 ^ 32, s.e, s.f, s.g⟩)
    st

/-- Big-endian bytes of one 32-bit word. -/
def wordBytes (w : Nat) : List Nat :=
  [(w >>> 24) % 256, (w >>> 16) % 256, (w >>> 8) % 256, w % 256]

/-- The SHA-256 digest (32 bytes) of a byte string. -/
def sha256 (msg : List Nat) : List Nat :=
  let init : Hash8 := ⟨1779033703, 3144134277, 1013904242, 2773480762,
    1359893119, 2600822924, 528734635, 1541459225⟩
  let fin := (chunks16 (toWords (pad msg))).foldl
    (fun st c =>
      let t := compress st (schedule c)
      ⟨(st.a + t.a) % 2 ^ 32, (st.b + t.b) % 2 ^ 32, (st.c + t.c) % 2 ^ 32,
       (st.d + t.d) % 2 ^ 32, (st.e + t.e) % 2 ^ 32, (st.f + t.f) % 2 ^ 32,
       (st.g + t.g) % 2 ^ 32, (st.h + t.h) % 2 ^ 32⟩)
    init
  wordBytes fin.a ++ wordBytes fin.b ++ wordBytes fin.c ++ wordBytes fin.d
    ++ wordBytes fin.e ++ wordBytes fin.f ++ wordBytes fin.g ++ wordBytes fin.h

end SHA256

/-- The standard base64 alphabet. -/
def b64Alphabet : List Char :=
  ("ABCDEFGHIJKLMNOPQRSTUVWXYZabcdefghijklmnopqrstuvwxyz0123456789+/").toList

def b64Char (n : Nat) : Char := b64Alphabet.getD n ('A')

/-- Standard base64 encoding with padding (encoding/base64, StdEncoding). -/
def b64Groups : List Nat → List Char
  | [] => []
  | [b0] =>
      let x := (b0 % 256) <<< 16
      [b64Char ((x >>> 18) % 64), b64Char ((x >>> 12) % 64), '=', '=']
  | [b0, b1] =>
      let x := ((b0 % 256) <<< 16) + ((b1 % 256) <<< 8)
      [b64Char ((x >>> 18) % 64), b64Char ((x >>> 12) % 64),
       b64Char ((x >>> 6) % 64), '=']
  | b0 :: b1 :: b2 :: rest =>
      let x := ((b0 % 256) <<< 16) + ((b1 % 256) <<< 8) + b2 % 256
      b64Char ((x >>> 18) % 64) :: b64Char ((x >>> 12) % 64)
        :: b64Char ((x >>> 6) % 64) :: b64Char (x % 64) :: b64Groups rest

def base64Encode (l : List Nat) : String := String.mk (b64Groups l)

set_option maxRecDepth 100000 in
/-- Known-answer check: the implementation above reproduces the published
SHA-256 digest of "abc", base64-encoded as Go does before signing. -/
theorem sha256_known_answer :
    base64Encode (SHA256.sha256 [0x61, 0x62, 0x63])
      = "ungWv48Bz+pBQUDeXa4iI7ADYaOWF3qctBD/YfIAFa0=" := by decide

/-! ## send (url_notifier.go, lines 197-234) -/

/-- Modelled from the spec: the signed credential built by the token helper
chain `auth.NewAccessToken(apiKey, apiSecret).SetValidFor(5 * time.Minute).SetSha256(b64)`
(the token package is outside the sources considered).  It binds the
key/secret pair, the construction instant (which varies run to run), the
validity duration, and the embedded payload digest. -/
structure AccessToken where
  apiKey : String
  apiSecret : String
  issuedAt : Int
  validFor : Int
  sha256Digest : String
  deriving Repr, DecidableEq

/-- Modelled from the spec: a fresh credential for the key/secret pair at
construction instant `now`. -/
def NewAccessToken (apiKey apiSecret : String) (now : Int) : AccessToken :=
  { apiKey := apiKey, apiSecret := apiSecret, issuedAt := now,
    validFor := 0, sha256Digest := "" }

def AccessToken.SetValidFor (t : AccessToken) (d : Int) : AccessToken :=
  { t with validFor := d }

def AccessToken.SetSha256 (t : AccessToken) (d : String) : AccessToken :=
  { t with sha256Digest := d }

/-- Go `time.Minute`, in nanoseconds. -/
def timeMinute : Int := 60 * 1000000000

/-- Modelled from the spec: the authentication header name carrying the
signed token (the constant is defined outside the sources considered). -/
def authHeader : String := "Authorization"

/-- An outgoing HTTP request as `send` assembles it. -/
structure Request where
  method : String
  url : String
  body : List Nat
  headers : List (String × String)
  deriving Repr, DecidableEq

/-- An HTTP response as seen by `send` (only its body needs closing). -/
structure Response where
  status : Nat
  deriving Repr, DecidableEq

/-- The external collaborators `send` calls, as black-box oracles: protojson
serialization, JWT construction, request building, and the retrying HTTP
client (`client.Do` retries internally up to the configured maximum; only
its terminal outcome is visible here).  `now` is the instant of token
construction. -/
structure SendEnv where
  marshal : WebhookEvent → Except String (List Nat)
  toJWT : AccessToken → Except String String
  newRequest : String → List Nat → Except String Request
  doRequest : Request → Except String Response
  now : Int

/-- Everything one `send` call returns or leaves behind: the returned error,
the event after the `NumDropped` write, the drop counter after the swap, the
credential and request built (when reached), and whether the response body
was closed. -/
structure SendResult where
  error : Option String
  event : WebhookEvent
  counter : Int
  token : Option AccessToken
  request : Option Request
  bodyClosed : Bool

/-- `URLNotifier.send` (lines 197-234): swap the drop counter into
`event.NumDropped`; serialize; hash, base64 and sign the payload into a
5-minute credential; build the POST request with the auth header and the
webhook content type; execute it through the retrying client; close the
response body on success.  Every early return carries that step's error. -/
def send (env : SendEnv) (apiKey apiSecret url : String) (dropped : Int)
    (e : WebhookEvent) : SendResult :=
  let e2 := { e with numDropped := dropped }
  match env.marshal e2 with
  | .error err => ⟨some err, e2, 0, none, none, false⟩
  | .ok encoded =>
      let b64 := base64Encode (SHA256.sha256 encoded)
      let at2 := ((NewAccessToken apiKey apiSecret env.now).SetValidFor
        (5 * timeMinute)).SetSha256 b64
      match env.toJWT at2 with
      | .error err => ⟨some err, e2, 0, some at2, none, false⟩
      | .ok token =>
          match env.newRequest url encoded with
          | .error err => ⟨some err, e2, 0, some at2, none, false⟩
          | .ok r0 =>
              let r := { r0 with headers := r0.headers
                ++ [(authHeader, token),
                    ("content-type", "application/webhook+json")] }
              match env.doRequest r with
              | .error err => ⟨some err, e2, 0, some at2, some r, false⟩
              | .ok _ => ⟨none, e2, 0, some at2, some r, true⟩

theorem send_event_eq (env : SendEnv) (apiKey apiSecret url : String)
    (dropped : Int) (e : WebhookEvent) :
    (send env apiKey apiSecret url dropped e).event
      = { e with numDropped := dropped } := by
  cases hm : env.marshal { e with numDropped := dropped } with
  | error err => simp [send, hm]
  | ok encoded =>
      cases ht : env.toJWT (((NewAccessToken apiKey apiSecret env.now).SetValidFor
          (5 * timeMinute)).SetSha256 (base64Encode (SHA256.sha256 encoded))) with
      | error err => simp [send, hm, ht]
      | ok token =>
          cases hr : env.newRequest url encoded with
          | error err => simp [send, hm, ht, hr]
          | ok r0 =>
              cases hd : env.doRequest { r0 with headers := r0.headers
                  ++ [(authHeader, token),
                      ("content-type", "application/webhook+json")] } with
              | error err => simp [send, hm, ht, hr, hd]
              | ok res => simp [send, hm, ht, hr, hd]

theorem send_counter_eq (env : SendEnv) (apiKey apiSecret url : String)
    (dropped : Int) (e : WebhookEvent) :
    (send env apiKey apiSecret url dropped e).counter = 0 := by
  cases hm : env.marshal { e with numDropped := dropped } with
  | error err => simp [send, hm]
  | ok encoded =>
      cases ht : env.toJWT (((NewAccessToken apiKey apiSecret env.now).SetValidFor
          (5 * timeMinute)).SetSha256 (base64Encode (SHA256.sha256 encoded))) with
      | error err => simp [send, hm, ht]
      | ok token =>
          cases hr : env.newRequest url encoded with
          | error err => simp [send, hm, ht, hr]
          | ok r0 =>
              cases hd : env.doRequest { r0 with headers := r0.headers
                  ++ [(authHeader, token),
                      ("content-type", "application/webhook+json")] } with
              | error err => simp [send, hm, ht, hr, hd]
              | ok res => simp [send, hm, ht, hr, hd]

/-- C6: send returns a non-nil error if and only if serialization of the
event fails, token construction fails, the HTTP request cannot be built, or
the HTTP client fails after exhausting retries; on success it discards
(closes) the response body and returns nil. -/
theorem send_error_characterization (env : SendEnv) (apiKey apiSecret url : String)
    (dropped : Int) (e : WebhookEvent) :
    ((send env apiKey apiSecret url dropped e).error = none ↔
      ∃ encoded token r res,
        env.marshal { e with numDropped := dropped } = .ok encoded ∧
        env.toJWT (((NewAccessToken apiKey apiSecret env.now).SetValidFor
          (5 * timeMinute)).SetSha256 (base64Encode (SHA256.sha256 encoded)))
            = .ok token ∧
        env.newRequest url encoded = .ok r ∧
        env.doRequest { r with headers := r.headers
          ++ [(authHeader, token),
              ("content-type", "application/webhook+json")] } = .ok res)
    ∧ ((send env apiKey apiSecret url dropped e).error = none →
        (send env apiKey apiSecret url dropped e).bodyClosed = true) := by
  cases hm : env.marshal { e with numDropped := dropped } with
  | error err => simp [send, hm]
  | ok encoded =>
      cases ht : env.toJWT (((NewAccessToken apiKey apiSecret env.now).SetValidFor
          (5 * timeMinute)).SetSha256 (base64Encode (SHA256.sha256 encoded))) with
      | error err => simp [send, hm, ht]
      | ok token =>
          cases hr : env.newRequest url encoded with
          | error err => simp [send, hm, ht, hr]
          | ok r0 =>
              cases hd : env.doRequest { r0 with headers := r0.headers
                  ++ [(authHeader, token),
                      ("content-type", "application/webhook+json")] } with
              | error err => simp [send, hm, ht, hr, hd]
              | ok res => simp [send, hm, ht, hr, hd]

/-- An environment whose oracles all succeed, for the witnesses. -/
def okEnv : SendEnv :=
  { marshal := fun e2 => .ok [e2.numDropped.toNat % 256],
    toJWT := fun t => .ok t.sha256Digest,
    newRequest := fun u body => .ok ⟨"POST", u, body, []⟩,
    doRequest := fun _ => .ok ⟨200⟩,
    now := 1000 }

/-- Concrete check of C6: with every collaborator succeeding, send returns
nil and the response body is closed. -/
theorem send_error_characterization_witness :
    (send okEnv ("key") ("secret") ("http://recv") 3 sampleEvent).bodyClosed
      = true :=
  (send_error_characterization okEnv ("key") ("secret") ("http://recv") 3
    sampleEvent).2 rfl

/-- C7: for every payload, signing embeds the base64 encoding of the SHA-256
digest of the serialized payload into a token valid for 5 minutes; signing
identical payload bytes with the same key/secret is deterministic in the
embedded digest (two runs over the same payload yield the same digest), even
though the token's validity timestamp may vary (the two runs here use
environments with arbitrary, possibly different, construction instants). -/
theorem send_signing_digest (env1 env2 : SendEnv) (apiKey apiSecret url : String)
    (d1 d2 : Int) (e1 e2 : WebhookEvent) (encoded : List Nat)
    (h1 : env1.marshal { e1 with numDropped := d1 } = .ok encoded)
    (h2 : env2.marshal { e2 with numDropped := d2 } = .ok encoded) :
    ∃ t1 t2,
      (send env1 apiKey apiSecret url d1 e1).token = some t1
      ∧ (send env2 apiKey apiSecret url d2 e2).token = some t2
      ∧ t1.sha256Digest = base64Encode (SHA256.sha256 encoded)
      ∧ t1.validFor = 5 * timeMinute
      ∧ t2.sha256Digest = t1.sha256Digest
      ∧ t2.validFor = t1.validFor := by
  refine ⟨((NewAccessToken apiKey apiSecret env1.now).SetValidFor
      (5 * timeMinute)).SetSha256 (base64Encode (SHA256.sha256 encoded)),
    ((NewAccessToken apiKey apiSecret env2.now).SetValidFor
      (5 * timeMinute)).SetSha256 (base64Encode (SHA256.sha256 encoded)),
    ?_, ?_, rfl, rfl, rfl, rfl⟩
  · cases ht : env1.toJWT (((NewAccessToken apiKey apiSecret env1.now).SetValidFor
        (5 * timeMinute)).SetSha256 (base64Encode (SHA256.sha256 encoded))) with
    | error err => simp [send, h1, ht]
    | ok token =>
        cases hr : env1.newRequest url encoded with
        | error err => simp [send, h1, ht, hr]
        | ok r0 =>
            cases hd : env1.doRequest { r0 with headers := r0.headers
                ++ [(authHeader, token),
                    ("content-type", "application/webhook+json")] } with
            | error err => simp [send, h1, ht, hr, hd]
            | ok res => simp [send, h1, ht, hr, hd]
  · cases ht : env2.toJWT (((NewAccessToken apiKey apiSecret env2.now).SetValidFor
        (5 * timeMinute)).SetSha256 (base64Encode (SHA256.sha256 encoded))) with
    | error err => simp [send, h2, ht]
    | ok token =>
        cases hr : env2.newRequest url encoded with
        | error err => simp [send, h2, ht, hr]
        | ok r0 =>
            cases hd : env2.doRequest { r0 with headers := r0.headers
                ++ [(authHeader, token),
                    ("content-type", "application/webhook+json")] } with
            | error err => simp [send, h2, ht, hr, hd]
            | ok res => simp [send, h2, ht, hr, hd]

/-- A second all-success environment, differing from `okEnv` in its token
construction instant. -/
def okEnvLater : SendEnv := { okEnv with now := 2000 }

/-- Concrete check of C7: two runs at different instants over the same
payload bytes embed the same digest. -/
theorem send_signing_digest_witness :
    ∃ t1 t2,
      (send okEnv ("key") ("secret") ("http://recv") 3 sampleEvent).token = some t1
      ∧ (send okEnvLater ("key") ("secret") ("http://recv") 3 sampleEvent).token
          = some t2
      ∧ t1.sha256Digest = base64Encode (SHA256.sha256 [3])
      ∧ t1.validFor = 5 * timeMinute
      ∧ t2.sha256Digest = t1.sha256Digest
      ∧ t2.validFor = t1.validFor :=
  send_signing_digest okEnv okEnvLater ("key") ("secret") ("http://recv") 3 3
    sampleEvent sampleEvent [3] rfl rfl

/-! ## The deferred worker task (url_notifier.go, lines 131-162) -/

/-- `k` successive `dropped.Inc()` operations applied to counter value `c`,
as recorded by concurrent producers while a send is in flight. -/
def incN (c : Int) : Nat → Int
  | 0 => c
  | k + 1 => wrap32 (incN c k + 1)

theorem incN_eq (k : Nat) : ∀ c : Int, 0 ≤ c → c + k < 2 ^ 31 → incN c k = c + k := by
  induction k with
  | zero => intro c _ _; simp [incN]
  | succ k ih =>
      intro c h0 hb
      have hk : incN c k = c + k := ih c h0 (by push_cast at hb ⊢; omega)
      simp only [incN, hk]
      rw [wrap32_eq_self (by omega) (by push_cast at hb ⊢; omega)]
      push_cast
      ring

/-- The deferred worker task body: run `send` (which swaps the counter into
`event.NumDropped`), then perform the post-send accounting on the shared
counter — add `event.NumDropped + 1` if the send failed, leave the counter
alone if it succeeded.  `interleaved` counts the enqueue rejections
concurrent producers record while the send is in flight; the accounting
operates on the counter those rejections produced. -/
def runTask (env : SendEnv) (apiKey apiSecret url : String) (dropped : Int)
    (e : WebhookEvent) (interleaved : Nat) : Int :=
  let r := send env apiKey apiSecret url dropped e
  let c := incN r.counter interleaved
  if r.error = none then c else wrap32 (c + (r.event.numDropped + 1))

/-- C5: for every accepted event whose send ultimately fails, the worker
task adds `event.num_dropped + 1` to the Drop Counter (on top of whatever
rejections arrived during the flight); for every accepted event whose send
succeeds, the Drop Counter is left unchanged by the post-send accounting.
The last conjunct identifies `event.num_dropped` as the value the swap in
`send` wrote into the event. -/
theorem task_post_send_accounting (env : SendEnv) (apiKey apiSecret url : String)
    (dropped : Int) (e : WebhookEvent) (interleaved : Nat)
    (hd : 0 ≤ dropped) (hb : dropped + interleaved + 1 < 2 ^ 31) :
    ((send env apiKey apiSecret url dropped e).error ≠ none →
        runTask env apiKey apiSecret url dropped e interleaved
          = (interleaved : Int) + (dropped + 1))
    ∧ ((send env apiKey apiSecret url dropped e).error = none →
        runTask env apiKey apiSecret url dropped e interleaved
          = (interleaved : Int))
    ∧ (send env apiKey apiSecret url dropped e).event.numDropped = dropped := by
  have he : (send env apiKey apiSecret url dropped e).event.numDropped = dropped := by
    rw [send_event_eq]
  have hc := send_counter_eq env apiKey apiSecret url dropped e
  have hincn : incN (send env apiKey apiSecret url dropped e).counter interleaved
      = (interleaved : Int) := by
    rw [hc, incN_eq interleaved 0 (le_refl 0) (by push_cast at hb ⊢; omega)]
    omega
  refine ⟨?_, ?_, he⟩
  · intro herr
    simp only [runTask]
    rw [if_neg herr, hincn, he]
    rw [wrap32_eq_self (by omega) (by push_cast at hb ⊢; omega)]
  · intro hok
    simp only [runTask]
    rw [if_pos hok, hincn]

/-- An environment whose HTTP client always fails terminally (e.g. the
endpoint answers 500 until retries are exhausted). -/
def failEnv : SendEnv := { okEnv with doRequest := fun _ => .error ("http 500") }

/-- Concrete check of C5: a failed send with two in-flight rejections adds
`num_dropped + 1` on top of them; the swap wrote 3 into the event. -/
theorem task_post_send_accounting_witness :
    ((send failEnv ("k") ("s") ("u") 3 sampleEvent).error ≠ none →
        runTask failEnv ("k") ("s") ("u") 3 sampleEvent 2 = (2 : Int) + (3 + 1))
    ∧ ((send failEnv ("k") ("s") ("u") 3 sampleEvent).error = none →
        runTask failEnv ("k") ("s") ("u") 3 sampleEvent 2 = (2 : Int))
    ∧ (send failEnv ("k") ("s") ("u") 3 sampleEvent).event.numDropped = 3 :=
  task_post_send_accounting failEnv ("k") ("s") ("u") 3 sampleEvent 2
    (by omega) (by norm_num)

/-- C10: send mutates only the event's NumDropped field, leaving Event,
Room, Participant, Track, EgressInfo, IngressInfo, Id and CreatedAt
unchanged; on the filtered-out and enqueue-rejected paths of QueueNotify,
the notifier itself does not mutate the event at all (those synchronous
paths hand it back exactly as given; only a registered fields hook or
processed hook could alter it). -/
theorem event_frame_conditions (env : SendEnv) (apiKey apiSecret url : String)
    (dropped : Int) (e : WebhookEvent) (n : Notifier) (accepted : Bool) :
    ((send env apiKey apiSecret url dropped e).event.event = e.event
      ∧ (send env apiKey apiSecret url dropped e).event.room = e.room
      ∧ (send env apiKey apiSecret url dropped e).event.participant = e.participant
      ∧ (send env apiKey apiSecret url dropped e).event.track = e.track
      ∧ (send env apiKey apiSecret url dropped e).event.egressInfo = e.egressInfo
      ∧ (send env apiKey apiSecret url dropped e).event.ingressInfo = e.ingressInfo
      ∧ (send env apiKey apiSecret url dropped e).event.id = e.id
      ∧ (send env apiKey apiSecret url dropped e).event.createdAt = e.createdAt)
    ∧ (n.isAllowed e.event = false ∨ accepted = false →
        (QueueNotify n e accepted).eventAfter = e) := by
  have he := send_event_eq env apiKey apiSecret url dropped e
  refine ⟨⟨?_, ?_, ?_, ?_, ?_, ?_, ?_, ?_⟩, ?_⟩
  · rw [he]
  · rw [he]
  · rw [he]
  · rw [he]
  · rw [he]
  · rw [he]
  · rw [he]
  · rw [he]
  · intro _
    cases h1 : n.isAllowed e.event <;> cases accepted <;>
      cases h2 : n.hasProcessedHook <;> cases h3 : n.fieldsHook <;>
        simp [QueueNotify, h1, h2, h3]

/-- Concrete check of C10 on the enqueue-rejected path. -/
theorem event_frame_conditions_witness :
    (QueueNotify ⟨"http://recv", fun _ => true, none, false, 0⟩ sampleEvent
        false).eventAfter = sampleEvent :=
  (event_frame_conditions okEnv ("k") ("s") ("u") 3 sampleEvent
      ⟨"http://recv", fun _ => true, none, false, 0⟩ false).2 (Or.inr rfl)

/-! ## The Delivery Queue Pool (spec 4.3 contract) and Stop -/

/-- Modelled from the spec: the queue pool collaborator (`core.QueuePool` is
consumed as a black box; spec 4.3 restates its contract).  Keys are hashed
onto a fixed set of partitions; each partition holds a bounded FIFO queue of
(key, task) pairs; `executed` is the log of completed tasks, in completion
order. -/
structure Pool where
  hash : String → Nat
  numPartitions : Nat
  capacity : Nat
  queues : Nat → List (String × Nat)
  executed : List (String × Nat)

/-- One scheduler event: a producer submission, or a partition worker
completing the task at the front of its queue. -/
inductive PoolOp where
  | submit (key : String) (task : Nat)
  | exec (p : Nat)

/-- Modelled from the spec: non-blocking keyed submission — hash the key to
a partition; if that partition's queue is at capacity, return false without
enqueueing; otherwise append and return true. -/
def poolSubmit (s : Pool) (key : String) (task : Nat) : Pool × Bool :=
  let p := s.hash key % s.numPartitions
  if (s.queues p).length < s.capacity then
    ({ s with queues := (fun i =>
        if i = p then s.queues p ++ [(key, task)] else s.queues i) }, true)
  else (s, false)

/-- Modelled from the spec: partition `p`'s worker completes the oldest
queued task, appending it to the execution log. -/
def poolExec (s : Pool) (p : Nat) : Pool :=
  match s.queues p with
  | [] => s
  | x :: rest =>
      { s with queues := (fun i => if i = p then rest else s.queues i)
               executed := s.executed ++ [x] }

/-- Run a schedule; also collect the accepted submissions, in order. -/
def poolRun (s : Pool) : List PoolOp → Pool × List (String × Nat)
  | [] => (s, [])
  | .submit k t :: ops =>
      let r := poolSubmit s k t
      let r2 := poolRun r.1 ops
      (r2.1, (if r.2 then [(k, t)] else []) ++ r2.2)
  | .exec p :: ops => poolRun (poolExec s p) ops

theorem poolSubmit_accepted (s : Pool) (k0 : String) (t : Nat)
    (hcap : (s.queues (s.hash k0 % s.numPartitions)).length < s.capacity) :
    poolSubmit s k0 t
      = ({ s with queues := (fun i =>
          if i = s.hash k0 % s.numPartitions
          then s.queues (s.hash k0 % s.numPartitions) ++ [(k0, t)]
          else s.queues i) }, true) := by
  simp [poolSubmit, hcap]

theorem poolSubmit_rejected (s : Pool) (k0 : String) (t : Nat)
    (hcap : ¬ (s.queues (s.hash k0 % s.numPartitions)).length < s.capacity) :
    poolSubmit s k0 t = (s, false) := by
  simp [poolSubmit, hcap]

theorem poolRun_submit_acc (s s2 : Pool) (k0 : String) (t : Nat) (ops : List PoolOp)
    (h : poolSubmit s k0 t = (s2, true)) :
    poolRun s (.submit k0 t :: ops)
      = ((poolRun s2 ops).1, (k0, t) :: (poolRun s2 ops).2) := by
  simp [poolRun, h]

theorem poolRun_submit_rej (s s2 : Pool) (k0 : String) (t : Nat) (ops : List PoolOp)
    (h : poolSubmit s k0 t = (s2, false)) :
    poolRun s (.submit k0 t :: ops) = poolRun s2 ops := by
  simp [poolRun, h]

theorem poolRun_exec (s : Pool) (p : Nat) (ops : List PoolOp) :
    poolRun s (.exec p :: ops) = poolRun (poolExec s p) ops := rfl

theorem poolRun_invariant (ops : List PoolOp) :
    ∀ s : Pool, (∀ p x, x ∈ s.queues p → s.hash x.1 % s.numPartitions = p) →
      (poolRun s ops).1.hash = s.hash
      ∧ (poolRun s ops).1.numPartitions = s.numPartitions
      ∧ (∀ p x, x ∈ (poolRun s ops).1.queues p → s.hash x.1 % s.numPartitions = p)
      ∧ ∀ k : String,
          ((poolRun s ops).1.executed.filter (fun x => x.1 == k))
            ++ (((poolRun s ops).1.queues (s.hash k % s.numPartitions)).filter
                (fun x => x.1 == k))
          = (s.executed.filter (fun x => x.1 == k))
            ++ ((s.queues (s.hash k % s.numPartitions)).filter (fun x => x.1 == k))
            ++ ((poolRun s ops).2.filter (fun x => x.1 == k)) := by
  induction ops with
  | nil =>
      intro s hinv
      refine ⟨rfl, rfl, hinv, fun k => ?_⟩
      simp [poolRun]
  | cons op ops ih =>
      intro s hinv
      cases op with
      | submit k0 t =>
          by_cases hcap :
              (s.queues (s.hash k0 % s.numPartitions)).length < s.capacity
          · rw [poolRun_submit_acc s _ k0 t ops (poolSubmit_accepted s k0 t hcap)]
            have hinv2 : ∀ p x,
                x ∈ (if p = s.hash k0 % s.numPartitions
                  then s.queues (s.hash k0 % s.numPartitions) ++ [(k0, t)]
                  else s.queues p) → s.hash x.1 % s.numPartitions = p := by
              intro p x hx
              by_cases hp : p = s.hash k0 % s.numPartitions
              · rw [if_pos hp] at hx
                rcases List.mem_append.mp hx with h | h
                · rw [hp]
                  exact hinv _ x h
                · simp only [List.mem_singleton] at h
                  subst h
                  rw [hp]
              · rw [if_neg hp] at hx
                exact hinv p x hx
            obtain ⟨ha, hb, hc, hd⟩ := ih
              { s with queues := (fun i =>
                  if i = s.hash k0 % s.numPartitions
                  then s.queues (s.hash k0 % s.numPartitions) ++ [(k0, t)]
                  else s.queues i) } hinv2
            dsimp only at ha hb hc hd ⊢
            refine ⟨ha, hb, hc, fun k => ?_⟩
            have hk := hd k
            rw [hk]
            by_cases hkey : k0 = k
            · subst hkey
              rw [if_pos rfl]
              simp [List.filter_append]
            · have hne : ((k0, t).1 == k) = false := by
                simp only [beq_eq_false_iff_ne]
                exact hkey
              by_cases hpk : s.hash k % s.numPartitions
                  = s.hash k0 % s.numPartitions
              · rw [if_pos hpk, hpk]
                simp [List.filter_append, List.filter_cons, hne]
              · rw [if_neg hpk]
                simp [List.filter_cons, hne]
          · rw [poolRun_submit_rej s s k0 t ops (poolSubmit_rejected s k0 t hcap)]
            exact ih s hinv
      | exec p0 =>
          rw [poolRun_exec]
          cases hq : s.queues p0 with
          | nil =>
              have hpe : poolExec s p0 = s := by
                simp [poolExec, hq]
              rw [hpe]
              exact ih s hinv
          | cons x rest =>
              have hpe : poolExec s p0
                  = { s with queues := (fun i => if i = p0 then rest else s.queues i)
                             executed := s.executed ++ [x] } := by
                simp [poolExec, hq]
              rw [hpe]
              have hxp : s.hash x.1 % s.numPartitions = p0 :=
                hinv p0 x (by rw [hq]; exact List.mem_cons_self x rest)
              have hinv2 : ∀ p y,
                  y ∈ (if p = p0 then rest else s.queues p)
                    → s.hash y.1 % s.numPartitions = p := by
                intro p y hy
                by_cases hp : p = p0
                · rw [if_pos hp] at hy
                  rw [hp]
                  exact hinv p0 y (by rw [hq]; exact List.mem_cons_of_mem x hy)
                · rw [if_neg hp] at hy
                  exact hinv p y hy
              obtain ⟨ha, hb, hc, hd⟩ := ih
                { s with queues := (fun i => if i = p0 then rest else s.queues i)
                         executed := s.executed ++ [x] } hinv2
              dsimp only at ha hb hc hd ⊢
              refine ⟨ha, hb, hc, fun k => ?_⟩
              have hk := hd k
              rw [hk]
              by_cases hpk : s.hash k % s.numPartitions = p0
              · rw [if_pos hpk, hpk, hq]
                by_cases hxk : (x.1 == k) = true
                · simp [List.filter_append, List.filter_cons, hxk]
                · simp only [Bool.not_eq_true] at hxk
                  simp [List.filter_append, List.filter_cons, hxk]
              · rw [if_neg hpk]
                have hne : (x.1 == k) = false := by
                  simp only [beq_eq_false_iff_ne]
                  intro hxk
                  exact hpk (by rw [← hxk]; exact hxp)
                simp [List.filter_append, List.filter_cons, hne]

/-- A fresh pool: empty partitions, empty execution log. -/
def mkPool (hash : String → Nat) (numPartitions capacity : Nat) : Pool :=
  ⟨hash, numPartitions, capacity, fun _ => [], []⟩

/-- C8: for every pair of events accepted under the same partition key (same
room), delivery order matches submission order — for each key, the accepted
submissions in order are exactly the executed tasks of that key in execution
order followed by the tasks of that key still queued, so executions never
reorder a key's tasks.  Events under different keys carry no relative
ordering guarantee: the second conjunct exhibits a schedule in which two
tasks accepted in one order on different keys are delivered in the opposite
order. -/
theorem pool_fifo_per_key :
    (∀ (hash : String → Nat) (numP cap : Nat) (ops : List PoolOp) (k : String),
      ((poolRun (mkPool hash numP cap) ops).2.filter (fun x => x.1 == k))
        = ((poolRun (mkPool hash numP cap) ops).1.executed.filter (fun x => x.1 == k))
          ++ (((poolRun (mkPool hash numP cap) ops).1.queues
                (hash k % numP)).filter (fun x => x.1 == k)))
    ∧ ((poolRun (mkPool (fun r => if r = "a" then 0 else 1) 2 1)
          [PoolOp.submit ("a") 1, PoolOp.submit ("b") 2,
            PoolOp.exec 1, PoolOp.exec 0]).2
        = [(("a"), 1), (("b"), 2)]
      ∧ (poolRun (mkPool (fun r => if r = "a" then 0 else 1) 2 1)
          [PoolOp.submit ("a") 1, PoolOp.submit ("b") 2,
            PoolOp.exec 1, PoolOp.exec 0]).1.executed
        = [(("b"), 2), (("a"), 1)]) := by
  refine ⟨fun hash numP cap ops k => ?_, by decide, by decide⟩
  obtain ⟨-, -, -, hd⟩ := poolRun_invariant ops (mkPool hash numP cap)
    (by intro p x hx; simp [mkPool] at hx)
  have hk := hd k
  simp only [mkPool, List.filter_nil, List.nil_append] at hk
  simp only [mkPool]
  exact hk.symm

/-- Modelled from the spec (4.3): `drain()` stops intake and lets all queued
and in-flight tasks run to completion (the model completes every partition's
queue, partition by partition); `kill()` discards queued tasks immediately,
so nothing beyond the already-completed log executes. -/
def drain (s : Pool) : Pool :=
  { s with queues := (fun _ => [])
           executed := s.executed
             ++ ((List.range s.numPartitions).map s.queues).flatten }

/-- Modelled from the spec (4.3): discard all queued tasks, stop workers. -/
def kill (s : Pool) : Pool := { s with queues := (fun _ => []) }

/-- `URLNotifier.Stop` (url_notifier.go, lines 189-195): `force = true`
kills the pool, `force = false` drains it. -/
def Stop (s : Pool) (force : Bool) : Pool := if force then kill s else drain s

/-- C9: Stop with force=false drains the pool — every queued task runs to
completion before shutdown completes (each queued task ends up in the
execution log, and no queue retains anything); Stop with force=true kills
the pool — queued tasks are abandoned (the execution log is exactly what had
already completed) and the queues are discarded. -/
theorem stop_drain_or_kill (s : Pool) :
    ((Stop s false).executed
        = s.executed ++ ((List.range s.numPartitions).map s.queues).flatten
      ∧ (∀ p, (Stop s false).queues p = [])
      ∧ ∀ p, p < s.numPartitions → ∀ x ∈ s.queues p, x ∈ (Stop s false).executed)
    ∧ ((Stop s true).executed = s.executed ∧ ∀ p, (Stop s true).queues p = []) := by
  refine ⟨⟨rfl, fun p => rfl, ?_⟩, rfl, fun p => rfl⟩
  intro p hp x hx
  show x ∈ s.executed ++ ((List.range s.numPartitions).map s.queues).flatten
  exact List.mem_append.mpr (Or.inr (List.mem_flatten.mpr
    ⟨s.queues p, List.mem_map.mpr ⟨p, List.mem_range.mpr hp, rfl⟩, hx⟩))

/-- A concretely loaded pool for the C9 witness: one partition holding two
queued tasks. -/
def samplePool : Pool :=
  { hash := fun _ => 0, numPartitions := 1, capacity := 2,
    queues := fun p => if p = 0 then [(("r1"), 1), (("r1"), 2)] else [],
    executed := [] }

/-- Concrete check of C9: draining completes the queued task; killing
abandons it. -/
theorem stop_drain_or_kill_witness :
    (("r1"), 1) ∈ (Stop samplePool false).executed
    ∧ (Stop samplePool true).executed = [] :=
  ⟨(stop_drain_or_kill samplePool).1.2.2 0 (by decide) (("r1"), 1) (by decide),
   (stop_drain_or_kill samplePool).2.1⟩

end Webhook
